import Mathlib

/-!
Verification of the allocscope tracer engine (allocscope-trace) against its
specification.  The Rust sources are shallowly embedded: machine words are
natural numbers with explicit truncation modulo 2^64 where the Rust code
operates on `u64`, tracee memory is a function from 8-byte-aligned addresses
to words, hash maps are association lists, and the ptrace / libunwind /
filesystem boundary (register reads, collected stacks, the symbol snapshot
read from /proc and ELF files) enters as explicit parameters.
-/

namespace Allocscope

/-- 2^64, the modulus of Rust `u64` arithmetic. -/
def U64 : Nat := 2 ^ 64

/-- Bitwise complement on a 64-bit word, modelling Rust `!m` for `m : u64`
(`m < 2^64`): xor against the all-ones 64-bit word. -/
def u64not (m : Nat) : Nat := (U64 - 1) ^^^ m

/-- Tracee memory, as a map from 8-byte-aligned addresses to the 64-bit
word stored there.  (`ptrace` word reads and writes are 8-byte aligned;
every caller in the source aligns with `address & !7` first.) -/
def Mem : Type := Nat → Nat

/-- `address & !7`: the 8-byte-aligned base of the word containing `address`. -/
def alignWord (address : Nat) : Nat := address / 8 * 8

/-- `(address & 7) * 8`: the bit position of `address`'s byte inside its
aligned word.  Mirrors `let shift = (address & 7) * 8` in breakpoint.rs. -/
def byteShift (address : Nat) : Nat := address % 8 * 8

/-- `ptrace::peektext`: read the 64-bit word at an (aligned) address. -/
def peektext (mem : Mem) (address : Nat) : Nat := mem address % U64

/-- `ptrace::poketext`: write a 64-bit word at an (aligned) address. -/
def poketext (mem : Mem) (address instruction : Nat) : Mem :=
  fun a => if a = address then instruction else mem a

/-- `ptrace::peekbyte`: `(peektext(pid, address & !7) >> ((address & 7) * 8)) & 0xFF`. -/
def peekbyte (mem : Mem) (address : Nat) : Nat :=
  (peektext mem (alignWord address) >>> byteShift address) &&& 0xFF

/-- breakpoint.rs `insert_breakpoint_instruction`: overwrite the byte of
`address` inside its aligned word with `0xCC` (x86 `int3`), preserving the
other seven bytes. -/
def insert_breakpoint_instruction (mem : Mem) (address : Nat) : Mem :=
  let shift := byteShift address
  let code := peektext mem (alignWord address)
  let instruction := (0xCC <<< shift) ||| (code &&& u64not (0xFF <<< shift))
  poketext mem (alignWord address) instruction

/-- breakpoint.rs `remove_breakpoint_instruction`: restore only the byte of
`address` from `original_instruction`, merged into the other seven bytes of
the currently observed word. -/
def remove_breakpoint_instruction (mem : Mem) (address original_instruction : Nat) : Mem :=
  let shift := byteShift address
  let code := peektext mem (alignWord address)
  let instruction :=
    (original_instruction &&& (0xFF <<< shift)) ||| (code &&& u64not (0xFF <<< shift))
  poketext mem (alignWord address) instruction

theorem alignWord_poketext_self (mem : Mem) (address v : Nat) :
    poketext mem address v address = v := by
  simp [poketext]

theorem peektext_poketext_self (mem : Mem) (address v : Nat) :
    peektext (poketext mem address v) address = v % U64 := by
  simp [peektext, poketext]

/-- Bits of the byte constant `0xFF`. -/
theorem testBit_255 (j : Nat) : Nat.testBit 0xFF j = decide (j < 8) := by
  rw [show (0xFF : Nat) = 2 ^ 8 - 1 from rfl, Nat.testBit_two_pow_sub_one]

/-- Bits of the all-ones 64-bit word. -/
theorem testBit_u64_ones (i : Nat) : Nat.testBit (U64 - 1) i = decide (i < 64) := by
  rw [show U64 - 1 = 2 ^ 64 - 1 from rfl, Nat.testBit_two_pow_sub_one]

/-- Word-level round trip: writing `0xCC` into one byte of a 64-bit word and
then restoring that byte from the saved original recovers the original word. -/
theorem restore_after_insert_word (w0 k : Nat) (hk : k < 8) (hw : w0 < U64) :
    ((w0 &&& (0xFF <<< (k * 8))) |||
      (((0xCC <<< (k * 8)) ||| (w0 &&& u64not (0xFF <<< (k * 8)))) &&&
        u64not (0xFF <<< (k * 8)))) = w0 := by
  apply Nat.eq_of_testBit_eq
  intro i
  simp only [Nat.testBit_or, Nat.testBit_and, u64not, Nat.testBit_xor,
    testBit_u64_ones, Nat.testBit_shiftLeft, testBit_255, ge_iff_le]
  by_cases h1 : k * 8 ≤ i
  · by_cases h2 : i - k * 8 < 8
    · -- inside the masked byte
      have hi64 : i < 64 := by omega
      simp [h1, h2, hi64]
    · -- same word, outside the masked byte
      have hccf : Nat.testBit 0xCC (i - k * 8) = false := by
        apply Nat.testBit_lt_two_pow
        calc (0xCC : Nat) < 2 ^ 8 := by norm_num
        _ ≤ 2 ^ (i - k * 8) := Nat.pow_le_pow_right (by norm_num) (by omega)
      by_cases hi64 : i < 64
      · simp [h1, h2, hccf, hi64]
      · have hw0 : Nat.testBit w0 i = false := by
          apply Nat.testBit_lt_two_pow
          calc w0 < 2 ^ 64 := hw
          _ ≤ 2 ^ i := Nat.pow_le_pow_right (by norm_num) (by omega)
        simp [h1, h2, hccf, hi64, hw0]
  · -- below the masked byte
    have hi64 : i < 64 := by omega
    simp [h1, hi64]

/-- Byte-level non-interference: restoring the byte at offset `kA` of a word
leaves the byte at a different offset `kB` unchanged. -/
theorem remove_word_other_byte (orig code kA kB : Nat) (_hA : kA < 8) (hB : kB < 8)
    (hne : kA ≠ kB) :
    ((((orig &&& (0xFF <<< (kA * 8))) ||| (code &&& u64not (0xFF <<< (kA * 8)))) >>>
        (kB * 8)) &&& 0xFF) = ((code >>> (kB * 8)) &&& 0xFF) := by
  apply Nat.eq_of_testBit_eq
  intro i
  simp only [Nat.testBit_and, Nat.testBit_shiftRight, Nat.testBit_or, u64not,
    Nat.testBit_xor, testBit_u64_ones, Nat.testBit_shiftLeft, testBit_255, ge_iff_le]
  by_cases hi : i < 8
  · -- a bit of the extracted byte: the masked byte of `kA` does not overlap it
    have hmA : (decide (kA * 8 ≤ kB * 8 + i) && decide (kB * 8 + i - kA * 8 < 8)) = false := by
      rcases Nat.lt_or_ge (kB * 8 + i) (kA * 8) with h | h
      · simp [Nat.not_le.mpr h]
      · have : ¬(kB * 8 + i - kA * 8 < 8) := by omega
        simp [this]
    have h64 : kB * 8 + i < 64 := by omega
    rw [hmA]
    simp [h64]
  · simp [hi]

/-! ## Breakpoint-set data model (breakpoint.rs) -/

/-- The breakpoint callbacks of hooks.rs, identified by name.  The Rust code
passes function pointers; invocation is interpreted by `run_callback`. -/
inductive CallbackId where
  | onMalloc
  | onCalloc
  | onRealloc
  | onFree
  | onMallocReturn
  deriving DecidableEq, Repr

/-- The syscall-intercept callback of hooks.rs (`on_mmap` is the only one). -/
inductive SyscallId where
  | onMmap
  deriving DecidableEq, Repr

/-- breakpoint.rs `Breakpoint`: address, the original word at the enclosing
aligned address, the callback, the persist flag, and the set of threads still
interested in this one-shot breakpoint. -/
structure Breakpoint where
  address : Nat
  original_instruction : Nat
  callback : CallbackId
  persist : Bool
  one_shot_threads : Finset Nat
  deriving DecidableEq

/-- breakpoint.rs `BreakpointLooseBinding`. -/
structure BreakpointLooseBinding where
  function_name : String
  callback : CallbackId

/-- Association-list model of a Rust `HashMap` with `Nat` keys: lookup. -/
def alookup {β : Type} : List (Nat × β) → Nat → Option β
  | [], _ => none
  | (k, v) :: rest, a => if k = a then some v else alookup rest a

/-- `HashMap::remove`-style erasure of a key. -/
def aerase {β : Type} : List (Nat × β) → Nat → List (Nat × β)
  | [], _ => []
  | (k, v) :: rest, a => if k = a then aerase rest a else (k, v) :: aerase rest a

/-- In-place update of the value at a key (Rust `get_mut` followed by field
mutation); a no-op when the key is absent. -/
def aModify {β : Type} : List (Nat × β) → Nat → (β → β) → List (Nat × β)
  | [], _, _ => []
  | (k, v) :: rest, a, f =>
      if k = a then (k, f v) :: aModify rest a f else (k, v) :: aModify rest a f

theorem alookup_aModify_self {β : Type} (m : List (Nat × β)) (k : Nat) (f : β → β) :
    alookup (aModify m k f) k = (alookup m k).map f := by
  induction m with
  | nil => rfl
  | cons hd tl ih =>
      rcases hd with ⟨k0, v⟩
      by_cases hk : k0 = k
      · simp [aModify, alookup, hk]
      · simp [aModify, alookup, hk, ih]

/-- String-keyed association lookup (the `symbols_by_name` view). -/
def slookup {β : Type} : List (String × β) → String → Option β
  | [], _ => none
  | (k, v) :: rest, a => if k = a then some v else slookup rest a

/-- breakpoint.rs `add_breakpoint`: insert a breakpoint instruction and record
the `Breakpoint` unless one is already present at `address` (avoiding
re-capturing the `0xCC` as the "original" word); then register the requesting
thread for one-shot breakpoints. -/
def add_breakpoint (breakpoints : List (Nat × Breakpoint)) (mem : Mem) (pid address : Nat)
    (callback : CallbackId) (persist : Bool) : List (Nat × Breakpoint) × Mem :=
  let (breakpoints, mem) :=
    if (alookup breakpoints address).isSome then (breakpoints, mem)
    else
      let original_instruction := peektext mem (alignWord address)
      let mem := insert_breakpoint_instruction mem address
      ((address, ⟨address, original_instruction, callback, persist, ∅⟩) :: breakpoints, mem)
  let breakpoints :=
    if persist then breakpoints
    else aModify breakpoints address
      (fun bp => { bp with one_shot_threads := insert pid bp.one_shot_threads })
  (breakpoints, mem)

/-- `Breakpoint::remove_breakpoint_instruction` (the method form). -/
def Breakpoint.remove_instruction (bp : Breakpoint) (mem : Mem) : Mem :=
  remove_breakpoint_instruction mem bp.address bp.original_instruction

/-! ## C3 and C4: byte-precise install / uninstall -/

theorem peektext_lt_U64 (mem : Mem) (a : Nat) : peektext mem a < U64 := by
  have : 0 < U64 := by norm_num [U64]
  exact Nat.mod_lt _ this

theorem alignWord_alignWord (a : Nat) : alignWord (alignWord a) = alignWord a := by
  unfold alignWord
  omega

theorem byteShift_alignWord (a : Nat) : byteShift (alignWord a) = 0 := by
  unfold byteShift alignWord
  omega

/-- Reading back the aligned word after an install observes the patched word. -/
theorem peektext_insert_self (mem : Mem) (address : Nat) :
    peektext (insert_breakpoint_instruction mem address) (alignWord address) =
      ((0xCC <<< byteShift address) |||
        (peektext mem (alignWord address) &&& u64not (0xFF <<< byteShift address))) := by
  have hlt : ((0xCC <<< byteShift address) |||
      (peektext mem (alignWord address) &&& u64not (0xFF <<< byteShift address))) < U64 := by
    apply Nat.or_lt_two_pow
    · have hs : byteShift address ≤ 56 := by
        unfold byteShift
        omega
      calc 0xCC <<< byteShift address = 0xCC * 2 ^ byteShift address := by
            rw [Nat.shiftLeft_eq]
      _ ≤ 0xCC * 2 ^ 56 := by
            exact Nat.mul_le_mul_left _ (Nat.pow_le_pow_right (by norm_num) hs)
      _ < 2 ^ 64 := by norm_num
    · calc peektext mem (alignWord address) &&& u64not (0xFF <<< byteShift address) ≤
            peektext mem (alignWord address) := Nat.and_le_left
      _ < U64 := peektext_lt_U64 mem _
  unfold insert_breakpoint_instruction
  rw [peektext_poketext_self, Nat.mod_eq_of_lt hlt]

/-- C3 (law *install/uninstall round-trip*, spec §8): peeking `A`'s aligned
word, installing a fresh breakpoint at `A`, and then uninstalling it leaves
the word at `A`'s aligned address equal to the initial peek value. -/
theorem install_uninstall_roundtrip (breakpoints : List (Nat × Breakpoint)) (mem : Mem)
    (pid A : Nat) (cb : CallbackId)
    (hfresh : alookup breakpoints A = none) :
    ∃ bp : Breakpoint,
      alookup (add_breakpoint breakpoints mem pid A cb true).1 A = some bp ∧
      peektext (bp.remove_instruction (add_breakpoint breakpoints mem pid A cb true).2)
          (alignWord A) =
        peektext mem (alignWord A) := by
  have hnone : (alookup breakpoints A).isSome = false := by
    rw [hfresh]
    rfl
  refine ⟨⟨A, peektext mem (alignWord A), cb, true, ∅⟩, ?_, ?_⟩
  · simp [add_breakpoint, hnone, alookup]
  · have hmem2 : (add_breakpoint breakpoints mem pid A cb true).2 =
        insert_breakpoint_instruction mem A := by
      simp [add_breakpoint, hnone]
    rw [hmem2]
    unfold Breakpoint.remove_instruction remove_breakpoint_instruction
    rw [peektext_poketext_self, peektext_insert_self]
    set w0 := peektext mem (alignWord A) with hw0
    have hwlt : w0 < U64 := peektext_lt_U64 mem _
    have hshift : byteShift A = A % 8 * 8 := rfl
    have hmain := restore_after_insert_word w0 (A % 8) (Nat.mod_lt _ (by norm_num)) hwlt
    rw [hshift, hmain]
    exact Nat.mod_eq_of_lt hwlt

/-- C4 (invariant 5, spec §8): uninstalling one breakpoint rewrites only the
byte at its own position inside the aligned word, so the byte of any other
address in the same word — in particular the `0xCC` of another installed
breakpoint — is unchanged. -/
theorem uninstall_preserves_other_breakpoint (mem : Mem) (bpA bpB : Breakpoint)
    (hword : alignWord bpA.address = alignWord bpB.address)
    (hne : bpA.address ≠ bpB.address)
    (hcc : peekbyte mem bpB.address = 0xCC) :
    peekbyte (bpA.remove_instruction mem) bpB.address = peekbyte mem bpB.address ∧
    peekbyte (bpA.remove_instruction mem) bpB.address = 0xCC := by
  have hkey : ∀ a, alignWord a = a / 8 * 8 := fun _ => rfl
  have hoff : bpA.address % 8 ≠ bpB.address % 8 := by
    have h1 := hkey bpA.address
    have h2 := hkey bpB.address
    rw [h1, h2] at hword
    omega
  have hmain :
      peekbyte (bpA.remove_instruction mem) bpB.address = peekbyte mem bpB.address := by
    unfold Breakpoint.remove_instruction remove_breakpoint_instruction peekbyte
    rw [← hword]
    simp only [peektext_poketext_self]
    set code := peektext mem (alignWord bpA.address) with hcode
    have hclt : code < U64 := peektext_lt_U64 mem _
    have hinstr : ((bpA.original_instruction &&& (0xFF <<< byteShift bpA.address)) |||
        (code &&& u64not (0xFF <<< byteShift bpA.address))) < U64 := by
      apply Nat.or_lt_two_pow
      · calc bpA.original_instruction &&& (0xFF <<< byteShift bpA.address) ≤
              0xFF <<< byteShift bpA.address := Nat.and_le_right
        _ = 0xFF * 2 ^ byteShift bpA.address := by rw [Nat.shiftLeft_eq]
        _ ≤ 0xFF * 2 ^ 56 := by
              have hs : byteShift bpA.address ≤ 56 := by
                unfold byteShift
                omega
              exact Nat.mul_le_mul_left _ (Nat.pow_le_pow_right (by norm_num) hs)
        _ < 2 ^ 64 := by norm_num
      · calc code &&& u64not (0xFF <<< byteShift bpA.address) ≤ code := Nat.and_le_left
        _ < U64 := hclt
    rw [Nat.mod_eq_of_lt hinstr]
    have hsA : byteShift bpA.address = bpA.address % 8 * 8 := rfl
    have hsB : byteShift bpB.address = bpB.address % 8 * 8 := rfl
    rw [hsA, hsB]
    exact remove_word_other_byte bpA.original_instruction code (bpA.address % 8)
      (bpB.address % 8) (Nat.mod_lt _ (by norm_num)) (Nat.mod_lt _ (by norm_num)) hoff
  exact ⟨hmain, hmain.trans hcc⟩

/-! ## Event sink (record.rs) -/

/-- record.rs `EventType`. -/
inductive EventType where
  | Alloc (size : Nat)
  | Realloc (original_address size : Nat)
  | Free
  deriving DecidableEq, Repr

/-- unwind.rs `StackEntry`. -/
structure StackEntry where
  address : Nat
  name : String
  offset : Nat
  deriving DecidableEq, Repr

/-- record.rs `RecordInProgress`. -/
structure RecordInProgress where
  allocation : EventType
  callstack : List StackEntry
  deriving DecidableEq, Repr

/-- A row inserted into the `event` table by `Transaction::insert_event`
(`allocation` flag, address, optional size); the timestamp and callstack id
columns are irrelevant to the claims and omitted. -/
structure EmittedEvent where
  allocation : Bool
  address : Nat
  size : Option Nat
  deriving DecidableEq, Repr

/-- record.rs `Transaction`: the per-thread in-progress map plus the list of
`event` rows inserted so far (the prepared SQL statements are the database
boundary; the `events` list records the `insert_event` calls in order). -/
structure Transaction where
  record_in_progress : List (Nat × RecordInProgress)
  events : List EmittedEvent
  deriving DecidableEq, Repr

/-- `Transaction::insert_event`. -/
def Transaction.insert_event (tx : Transaction) (allocation : Bool) (address : Nat)
    (size : Option Nat) : Transaction :=
  { tx with events := tx.events ++ [⟨allocation, address, size⟩] }

/-- `Transaction::is_event_in_progress`. -/
def Transaction.is_event_in_progress (tx : Transaction) (pid : Nat) : Bool :=
  (alookup tx.record_in_progress pid).isSome

/-- `Transaction::start_event`: `HashMap::insert`, replacing any previous
in-progress record for the thread. -/
def Transaction.start_event (tx : Transaction) (pid : Nat) (allocation : EventType)
    (callstack : List StackEntry) : Transaction :=
  { tx with record_in_progress :=
      (pid, ⟨allocation, callstack⟩) :: aerase tx.record_in_progress pid }

/-- record.rs `Transaction::complete_event`: remove the in-progress record for
the thread (erroring if none), then insert event rows according to the event
type and the completion address. -/
def Transaction.complete_event (tx : Transaction) (pid address : Nat) :
    Except String Transaction :=
  match alookup tx.record_in_progress pid with
  | none => .error "Completing event with none in-progress"
  | some record_in_progress =>
    let tx := { tx with record_in_progress := aerase tx.record_in_progress pid }
    match record_in_progress.allocation with
    | .Alloc size =>
        .ok (if address ≠ 0 then tx.insert_event true address (some size) else tx)
    | .Free =>
        .ok (if address ≠ 0 then tx.insert_event false address none else tx)
    | .Realloc original_address size =>
        let tx :=
          if original_address ≠ 0 ∧ (address ≠ 0 ∨ size = 0) then
            tx.insert_event false original_address none
          else tx
        .ok (if address ≠ 0 then tx.insert_event true address (some size) else tx)

/-! ## C1: completion policy of the event sink -/

/-- C1 (spec §6.3 completion policy and §8 *completion consistency*): when an
in-progress event for `pid` is completed with result `address`, the rows
appended to the event table are: for `Alloc size` an allocation row
`(address, size)` iff `address ≠ 0`; for `Free` a free row at `address` iff
`address ≠ 0`; for `Realloc(prev, size)` a free of `prev` iff `prev ≠ 0` and
(`address ≠ 0` or `size = 0`), and an allocation `(address, size)` iff
`address ≠ 0`, the free preceding the allocation. -/
theorem complete_event_emission (tx : Transaction) (pid address : Nat)
    (rec : RecordInProgress)
    (h : alookup tx.record_in_progress pid = some rec) :
    ∃ tx' : Transaction, tx.complete_event pid address = .ok tx' ∧
      tx'.events = tx.events ++
        (match rec.allocation with
          | .Alloc size => if address ≠ 0 then [⟨true, address, some size⟩] else []
          | .Free => if address ≠ 0 then [⟨false, address, none⟩] else []
          | .Realloc prev size =>
              (if prev ≠ 0 ∧ (address ≠ 0 ∨ size = 0) then
                  [⟨false, prev, (none : Option Nat)⟩] else []) ++
                (if address ≠ 0 then [⟨true, address, some size⟩] else [])) ∧
      (∀ prev size, rec.allocation = .Realloc prev size →
        prev ≠ 0 → address ≠ 0 →
          tx'.events = tx.events ++
            [⟨false, prev, (none : Option Nat)⟩, ⟨true, address, some size⟩]) := by
  unfold Transaction.complete_event
  rw [h]
  rcases rec with ⟨alloc, stack⟩
  rcases alloc with size | ⟨prev, size⟩ | _
  · refine ⟨_, rfl, ?_, ?_⟩
    · by_cases ha : address = 0 <;> simp [ha, Transaction.insert_event]
    · intro prev size hcontra
      simp at hcontra
  · refine ⟨_, rfl, ?_, ?_⟩
    · by_cases hprev : prev = 0 <;> by_cases ha : address = 0 <;>
        by_cases hsz : size = 0 <;>
          simp [hprev, ha, hsz, Transaction.insert_event]
    · intro prevA sizeA heq hprev haddr
      simp only [EventType.Realloc.injEq] at heq
      obtain ⟨rfl, rfl⟩ := heq
      simp [hprev, haddr, Transaction.insert_event]
  · refine ⟨_, rfl, ?_, ?_⟩
    · by_cases ha : address = 0 <;> simp [ha, Transaction.insert_event]
    · intro prev size hcontra
      simp at hcontra

/-! ## C10: error behaviour of `complete_event` -/

/-- C10: `complete_event(tid, address)` fails exactly when no event is in
progress for `tid`; in the failing case the removal is a no-op on the
in-progress map; on success the in-progress record for `tid` has been
removed, so `is_event_in_progress(tid)` is false afterwards. -/
theorem complete_event_error_iff (tx : Transaction) (pid address : Nat) :
    ((∃ e, tx.complete_event pid address = .error e) ↔
        alookup tx.record_in_progress pid = none) ∧
      (alookup tx.record_in_progress pid = none →
        aerase tx.record_in_progress pid = tx.record_in_progress) ∧
      (∀ tx', tx.complete_event pid address = .ok tx' →
        tx'.is_event_in_progress pid = false) := by
  have hrm : ∀ (β : Type) (m : List (Nat × β)) (k : Nat), alookup (aerase m k) k = none := by
    intro β m k
    induction m with
    | nil => rfl
    | cons hd tl ih =>
        rcases hd with ⟨k0, v⟩
        by_cases hk : k0 = k
        · simpa [aerase, hk] using ih
        · simp [aerase, hk, alookup, ih]
  refine ⟨⟨?_, ?_⟩, ?_, ?_⟩
  · rintro ⟨e, he⟩
    by_contra hne
    rcases Option.ne_none_iff_exists'.mp hne with ⟨rec, hrec⟩
    unfold Transaction.complete_event at he
    rw [hrec] at he
    rcases rec with ⟨alloc, stack⟩
    rcases alloc with size | ⟨prev, size⟩ | _ <;> simp at he
  · intro hnone
    unfold Transaction.complete_event
    rw [hnone]
    exact ⟨_, rfl⟩
  · intro hnone
    have haux : ∀ m : List (Nat × RecordInProgress),
        alookup m pid = none → aerase m pid = m := by
      intro m
      induction m with
      | nil => intro _; rfl
      | cons hd tl ih =>
          intro hnone2
          rcases hd with ⟨k0, v⟩
          by_cases hk : k0 = pid
          · rw [show alookup ((k0, v) :: tl) pid = some v from by simp [alookup, hk]] at hnone2
            exact absurd hnone2 (by simp)
          · simp only [alookup, if_neg hk] at hnone2
            simp [aerase, hk, ih hnone2]
    exact haux _ hnone
  · intro tx' hok
    unfold Transaction.complete_event at hok
    rcases hh : alookup tx.record_in_progress pid with _ | rec
    · rw [hh] at hok
      simp at hok
    · rw [hh] at hok
      rcases rec with ⟨alloc, stack⟩
      rcases alloc with size | ⟨prev, size⟩ | _ <;>
        (simp only [Except.ok.injEq] at hok
         split_ifs at hok <;>
           (rw [← hok]
            simp [Transaction.is_event_in_progress, Transaction.insert_event, hrm]))

/-! ## Symbol index (symbol_index.rs) -/

/-- symbol_index.rs `SymbolInfo`. -/
structure SymbolInfo where
  name : String
  address : Nat
  size : Nat
  deriving DecidableEq, Repr

/-- The `while let Some((_, info)) = symbols_by_range.next_back()` loop of
`SymbolIndex::get_function_by_address`, with the candidates already listed in
decreasing address order and `tries` the loop counter (`tries += 1; if tries
>= 4 { break; }`). -/
def get_function_loop (address : Nat) : List SymbolInfo → Nat → Option SymbolInfo
  | [], _ => none
  | info :: rest, tries =>
      if address - info.address ≤ info.size then some info
      else if tries + 1 ≥ 4 then none
      else get_function_loop address rest (tries + 1)

/-- symbol_index.rs `SymbolIndex::get_function_by_address`.  The `BTreeMap`
`symbols_by_address` is modelled as an association list in ascending key
order; `range(..address + 1)` keeps the keys below `address + 1` (computed in
`u64`, hence the modulus), and `next_back` walks the kept entries from the
greatest key downward (the reversal). -/
def get_function_by_address (symbols_by_address : List (Nat × SymbolInfo))
    (address : Nat) : Option SymbolInfo :=
  get_function_loop address
    (((symbols_by_address.filter (fun p => decide (p.1 < (address + 1) % U64))).map
        Prod.snd).reverse) 0

theorem get_function_loop_take (address : Nat) (l : List SymbolInfo) :
    ∀ t : Nat, t < 4 →
      get_function_loop address l t =
        (l.take (4 - t)).find? (fun s => decide (address - s.address ≤ s.size)) := by
  induction l with
  | nil => intro t _; simp [get_function_loop]
  | cons info rest ih =>
      intro t ht
      rw [get_function_loop]
      obtain ⟨k, hk⟩ : ∃ k, 4 - t = k + 1 := ⟨3 - t, by omega⟩
      rw [hk, List.take_succ_cons, List.find?]
      by_cases hpred : address - info.address ≤ info.size
      · simp [hpred]
      · rw [if_neg hpred, decide_eq_false hpred]
        by_cases hbreak : t + 1 ≥ 4
        · have hk0 : k = 0 := by omega
          simp [hbreak, hk0]
        · have ht1 : t + 1 < 4 := by omega
          rw [if_neg hbreak, ih (t + 1) ht1]
          have : 4 - (t + 1) = k := by omega
          rw [this]

/-- C6 counterexample.  First conjunct: with one indexed symbol of address 0
and size 4, looking up address 4 returns that symbol although its half-open
range `[0, 4)` does not contain 4 (the code tests the closed range, via
`address - info.address <= info.size`).  Second conjunct: with symbols at
10 (size 100), 20, 30, 40, 50 (size 0), looking up 55 returns none although
the symbol at 10 — the fourth predecessor of the greatest symbol ≤ 55, whose
half-open range `[10, 110)` does contain 55 — should be found per the claim:
the loop gives up after examining only four symbols in total. -/
theorem get_function_by_address_counterexample :
    (get_function_by_address [(0, ⟨"f", 0, 4⟩)] 4 = some ⟨"f", 0, 4⟩ ∧ ¬(4 < 0 + 4)) ∧
      (get_function_by_address
          [(10, ⟨"g", 10, 100⟩), (20, ⟨"v1", 20, 0⟩), (30, ⟨"v2", 30, 0⟩),
            (40, ⟨"v3", 40, 0⟩), (50, ⟨"v4", 50, 0⟩)] 55 = none ∧
        10 ≤ 55 ∧ 55 < 10 + 100) := by
  exact ⟨⟨rfl, by decide⟩, rfl, by decide, by decide⟩

/-- C6 (amended): for `address + 1` within `u64` range, the enclosing-symbol
lookup examines only the (at most) four greatest indexed symbols whose address
is ≤ `address`, in decreasing address order, and returns the first whose
**closed** range `[address, address + size]` contains the target (the test is
`address - info.address <= info.size`), or none if none of the at most four
examined symbols matches. -/
theorem get_function_by_address_closed_range (symbols_by_address : List (Nat × SymbolInfo))
    (address : Nat) (h : address + 1 < U64) :
    get_function_by_address symbols_by_address address =
      ((((symbols_by_address.filter (fun p => decide (p.1 ≤ address))).map
          Prod.snd).reverse).take 4).find?
        (fun s => decide (address - s.address ≤ s.size)) := by
  unfold get_function_by_address
  rw [get_function_loop_take address _ 0 (by norm_num)]
  have hmod : (address + 1) % U64 = address + 1 := Nat.mod_eq_of_lt h
  have hfilter : symbols_by_address.filter (fun p => decide (p.1 < (address + 1) % U64)) =
      symbols_by_address.filter (fun p => decide (p.1 ≤ address)) := by
    apply List.filter_congr
    intro p _
    rw [hmod]
    simp [Nat.lt_succ_iff]
  rw [hfilter]

/-! ## Breakpoint set and resolution (breakpoint.rs) -/

/-- breakpoint.rs `BreakpointSet`. -/
structure BreakpointSet where
  bindings : List BreakpointLooseBinding
  breakpoints : List (Nat × Breakpoint)
  syscall_intercepts : List (Nat × SyscallId)

/-- `BreakpointSet::add_one_shot_breakpoint`. -/
def BreakpointSet.add_one_shot_breakpoint (bs : BreakpointSet) (mem : Mem)
    (pid address : Nat) (callback : CallbackId) : BreakpointSet × Mem :=
  let (bps, mem) := add_breakpoint bs.breakpoints mem pid address callback false
  ({ bs with breakpoints := bps }, mem)

/-- `BreakpointSet::remove_one_shot_breakpoint`: drop `pid` from the
breakpoint's interested-thread set (the source errors when no breakpoint
exists at `address`; callers only reach it with the breakpoint present, and
the modification is a no-op in that impossible case). -/
def BreakpointSet.remove_one_shot_breakpoint (bs : BreakpointSet) (pid address : Nat) :
    BreakpointSet :=
  let bps := aModify bs.breakpoints address
    (fun bp => { bp with one_shot_threads := bp.one_shot_threads.erase pid })
  { bs with breakpoints := bps }

/-- `BreakpointSet::rebind_breakpoints`: re-write the `0xCC` byte of every
currently known breakpoint. -/
def BreakpointSet.rebind_breakpoints (breakpoints : List (Nat × Breakpoint)) (mem : Mem) :
    Mem :=
  breakpoints.foldl (fun m p => insert_breakpoint_instruction m p.2.address) mem

/-- The inner loop of `resolve_breakpoints`: for each address of a resolved
function name, install a persistent breakpoint if none is present. -/
def resolve_addresses (pid : Nat) (callback : CallbackId) :
    List Nat → List (Nat × Breakpoint) × Mem → List (Nat × Breakpoint) × Mem
  | [], acc => acc
  | address :: rest, (bps, mem) =>
      resolve_addresses pid callback rest
        (if (alookup bps address).isSome then (bps, mem)
         else add_breakpoint bps mem pid address callback true)

/-- The outer loop of `resolve_breakpoints` over the loose bindings. -/
def resolve_bindings (pid : Nat) (symbols : List (String × List Nat)) :
    List BreakpointLooseBinding → List (Nat × Breakpoint) × Mem →
      List (Nat × Breakpoint) × Mem
  | [], acc => acc
  | binding :: rest, acc =>
      resolve_bindings pid symbols rest
        (match slookup symbols binding.function_name with
          | some entry => resolve_addresses pid binding.callback entry acc
          | none => acc)

/-- breakpoint.rs `BreakpointSet::resolve_breakpoints`.  The source snapshots
the process map and builds a `SymbolIndex` from the tracee's mapped ELF files;
that OS-derived name → address-list view enters here as the `symbols`
parameter.  After processing all bindings every known breakpoint's `0xCC`
byte is re-written (`rebind_breakpoints`). -/
def BreakpointSet.resolve_breakpoints (bs : BreakpointSet) (mem : Mem)
    (symbols : List (String × List Nat)) (pid : Nat) : BreakpointSet × Mem :=
  let (bps, mem) := resolve_bindings pid symbols bs.bindings (bs.breakpoints, mem)
  let mem := BreakpointSet.rebind_breakpoints bps mem
  ({ bs with breakpoints := bps }, mem)

theorem add_breakpoint_mono (bps : List (Nat × Breakpoint)) (mem : Mem)
    (pid address : Nat) (cb : CallbackId) (a : Nat) (bp : Breakpoint)
    (h : alookup bps a = some bp) :
    alookup (add_breakpoint bps mem pid address cb true).1 a = some bp := by
  unfold add_breakpoint
  by_cases hpres : (alookup bps address).isSome
  · simp [hpres, h]
  · have hne : address ≠ a := by
      intro he
      rw [he, h] at hpres
      exact hpres rfl
    simp [hpres, alookup, hne, h]

theorem add_breakpoint_new (bps : List (Nat × Breakpoint)) (mem : Mem)
    (pid address : Nat) (cb : CallbackId) (a : Nat) (bp' : Breakpoint)
    (h : alookup (add_breakpoint bps mem pid address cb true).1 a = some bp') :
    alookup bps a = some bp' ∨ bp'.persist = true := by
  unfold add_breakpoint at h
  by_cases hpres : (alookup bps address).isSome
  · simp [hpres] at h
    exact Or.inl h
  · simp only [hpres, Bool.false_eq_true, if_neg, if_true, ite_false] at h
    simp only [alookup] at h
    by_cases he : address = a
    · rw [if_pos he] at h
      right
      cases h
      rfl
    · rw [if_neg he] at h
      exact Or.inl h

theorem resolve_addresses_mono (pid : Nat) (cb : CallbackId) (addrs : List Nat) :
    ∀ (acc : List (Nat × Breakpoint) × Mem) (a : Nat) (bp : Breakpoint),
      alookup acc.1 a = some bp →
        alookup (resolve_addresses pid cb addrs acc).1 a = some bp := by
  induction addrs with
  | nil => intro acc a bp h; exact h
  | cons address rest ih =>
      intro acc a bp h
      rcases acc with ⟨bps, mem⟩
      rw [resolve_addresses]
      by_cases hpres : (alookup bps address).isSome
      · exact ih _ a bp (by simpa [hpres] using h)
      · simp only [hpres, Bool.false_eq_true, if_false]
        exact ih _ a bp (add_breakpoint_mono bps mem pid address cb a bp h)

theorem resolve_addresses_new (pid : Nat) (cb : CallbackId) (addrs : List Nat) :
    ∀ (acc : List (Nat × Breakpoint) × Mem) (a : Nat) (bp' : Breakpoint),
      alookup (resolve_addresses pid cb addrs acc).1 a = some bp' →
        alookup acc.1 a = some bp' ∨ bp'.persist = true := by
  induction addrs with
  | nil => intro acc a bp' h; exact Or.inl h
  | cons address rest ih =>
      intro acc a bp' h
      rcases acc with ⟨bps, mem⟩
      rw [resolve_addresses] at h
      by_cases hpres : (alookup bps address).isSome
      · rcases ih _ a bp' (by simpa [hpres] using h) with h2 | h2
        · exact Or.inl h2
        · exact Or.inr h2
      · simp only [hpres, Bool.false_eq_true, if_false] at h
        rcases ih _ a bp' h with h2 | h2
        · exact add_breakpoint_new bps mem pid address cb a bp' h2
        · exact Or.inr h2

theorem resolve_addresses_cover (pid : Nat) (cb : CallbackId) (addrs : List Nat) :
    ∀ (acc : List (Nat × Breakpoint) × Mem) (a : Nat), a ∈ addrs →
      (alookup (resolve_addresses pid cb addrs acc).1 a).isSome := by
  induction addrs with
  | nil => intro acc a h; cases h
  | cons address rest ih =>
      intro acc a h
      rcases acc with ⟨bps, mem⟩
      rw [resolve_addresses]
      rcases List.mem_cons.mp h with rfl | htail
      · -- the head address is present after its own step; later steps preserve it
        by_cases hpres : (alookup bps a).isSome
        · rcases Option.isSome_iff_exists.mp hpres with ⟨bp, hbp⟩
          simp only [hpres, if_true]
          rw [resolve_addresses_mono pid cb rest (bps, mem) a bp hbp]
          rfl
        · simp only [hpres, Bool.false_eq_true, if_false]
          have hstep : alookup (add_breakpoint bps mem pid a cb true).1 a =
              some ⟨a, peektext mem (alignWord a), cb, true, ∅⟩ := by
            have hnone : (alookup bps a).isSome = false := by
              simpa using hpres
            simp [add_breakpoint, hnone, alookup]
          rw [resolve_addresses_mono pid cb rest _ a _ hstep]
          rfl
      · exact ih _ a htail

theorem resolve_bindings_mono (pid : Nat) (symbols : List (String × List Nat))
    (bindings : List BreakpointLooseBinding) :
    ∀ (acc : List (Nat × Breakpoint) × Mem) (a : Nat) (bp : Breakpoint),
      alookup acc.1 a = some bp →
        alookup (resolve_bindings pid symbols bindings acc).1 a = some bp := by
  induction bindings with
  | nil => intro acc a bp h; exact h
  | cons binding rest ih =>
      intro acc a bp h
      rw [resolve_bindings]
      rcases hname : slookup symbols binding.function_name with _ | entry
      · simpa [hname] using ih acc a bp h
      · exact ih _ a bp (resolve_addresses_mono pid binding.callback entry acc a bp h)

theorem resolve_bindings_new (pid : Nat) (symbols : List (String × List Nat))
    (bindings : List BreakpointLooseBinding) :
    ∀ (acc : List (Nat × Breakpoint) × Mem) (a : Nat) (bp' : Breakpoint),
      alookup (resolve_bindings pid symbols bindings acc).1 a = some bp' →
        alookup acc.1 a = some bp' ∨ bp'.persist = true := by
  induction bindings with
  | nil => intro acc a bp' h; exact Or.inl h
  | cons binding rest ih =>
      intro acc a bp' h
      rw [resolve_bindings] at h
      rcases hname : slookup symbols binding.function_name with _ | entry
      · rw [hname] at h
        exact ih acc a bp' h
      · rw [hname] at h
        rcases ih _ a bp' h with h2 | h2
        · exact resolve_addresses_new pid binding.callback entry acc a bp' h2
        · exact Or.inr h2

theorem resolve_bindings_cover (pid : Nat) (symbols : List (String × List Nat))
    (bindings : List BreakpointLooseBinding) :
    ∀ (acc : List (Nat × Breakpoint) × Mem) (binding : BreakpointLooseBinding)
      (entry : List Nat) (a : Nat),
      binding ∈ bindings → slookup symbols binding.function_name = some entry →
        a ∈ entry →
          (alookup (resolve_bindings pid symbols bindings acc).1 a).isSome := by
  induction bindings with
  | nil => intro acc binding entry a h; cases h
  | cons first rest ih =>
      intro acc binding entry a hmem hname ha
      rw [resolve_bindings]
      rcases List.mem_cons.mp hmem with rfl | htail
      · rw [hname]
        have hcov := resolve_addresses_cover pid binding.callback entry acc a ha
        rcases Option.isSome_iff_exists.mp hcov with ⟨bp, hbp⟩
        rw [resolve_bindings_mono pid symbols rest _ a bp hbp]
        rfl
      · rcases hname2 : slookup symbols first.function_name with _ | entry2
        · exact ih acc binding entry a htail hname ha
        · exact ih _ binding entry a htail hname ha

/-! ## C7: breakpoint resolution -/

/-- C7 counterexample: a one-shot (non-persistent) breakpoint already present
at an address to which a loose binding resolves is reused as-is by
`resolve_breakpoints`, so afterwards the breakpoint at that address is **not**
persistent, contradicting the claim that every resolved address carries a
persistent breakpoint. -/
theorem resolve_breakpoints_counterexample :
    (alookup
        (BreakpointSet.resolve_breakpoints
          ⟨[⟨"malloc", .onMalloc⟩],
            [(100, ⟨100, 7, .onMallocReturn, false, {5}⟩)], []⟩
          (fun _ => 0) [("malloc", [100])] 1).1.breakpoints 100).map
      Breakpoint.persist = some false := by
  rfl

/-- C7 (amended): after `resolve()`, every loose binding whose function name
resolves to a list of addresses has a Breakpoint recorded at each of those
addresses.  An address that already had a Breakpoint before `resolve()` keeps
that exact record — in particular its saved original word is not re-captured,
and its persist flag is unchanged (a pre-existing one-shot stays
non-persistent) — while an address with no prior Breakpoint receives a fresh
persistent one. -/
theorem resolve_breakpoints_covers (bs : BreakpointSet) (mem : Mem)
    (symbols : List (String × List Nat)) (pid : Nat)
    (binding : BreakpointLooseBinding) (hb : binding ∈ bs.bindings)
    (entry : List Nat) (hname : slookup symbols binding.function_name = some entry)
    (a : Nat) (ha : a ∈ entry) :
    ∃ bp' : Breakpoint,
      alookup (bs.resolve_breakpoints mem symbols pid).1.breakpoints a = some bp' ∧
        (∀ bp, alookup bs.breakpoints a = some bp → bp' = bp) ∧
        (alookup bs.breakpoints a = none → bp'.persist = true) := by
  have hfinal : (bs.resolve_breakpoints mem symbols pid).1.breakpoints =
      (resolve_bindings pid symbols bs.bindings (bs.breakpoints, mem)).1 := by
    unfold BreakpointSet.resolve_breakpoints
    rfl
  rw [hfinal]
  have hcov := resolve_bindings_cover pid symbols bs.bindings (bs.breakpoints, mem)
    binding entry a hb hname ha
  rcases Option.isSome_iff_exists.mp hcov with ⟨bp', hbp'⟩
  refine ⟨bp', hbp', ?_, ?_⟩
  · intro bp hbefore
    have := resolve_bindings_mono pid symbols bs.bindings (bs.breakpoints, mem) a bp hbefore
    rw [hbp'] at this
    exact Option.some_inj.mp this
  · intro hnone
    rcases resolve_bindings_new pid symbols bs.bindings (bs.breakpoints, mem) a bp' hbp'
      with h2 | h2
    · rw [hnone] at h2
      cases h2
    · exact h2

/-! ## Trace context (context.rs) and hook callbacks (hooks.rs) -/

/-- context.rs `TraceThreadContext`; the libunwind per-thread handle
(`unwind_context`) is a native resource with no bearing on the claims. -/
structure TraceThreadContext where
  in_syscall : Bool
  deriving DecidableEq, Repr

/-- context.rs `TraceContext`: breakpoint set, the recording transaction, and
the per-thread contexts.  The process map, symbol index, and the libunwind
address space are snapshots of OS state; where their content matters
(`resolve_breakpoints`, `collect_stack`) it enters as an explicit
parameter. -/
structure TraceContext where
  breakpoint_set : BreakpointSet
  transaction : Transaction
  thread_context : List (Nat × TraceThreadContext)

/-- `TraceContext::ensure_thread_context`: create the thread context with
`in_syscall: false` on first sight. -/
def TraceContext.ensure_thread_context (ctx : TraceContext) (pid : Nat) : TraceContext :=
  if (alookup ctx.thread_context pid).isSome then ctx
  else { ctx with thread_context := (pid, ⟨false⟩) :: ctx.thread_context }

/-- The x86_64 integer registers read through `ptrace::getregs` that the
hooks consult. -/
structure Regs where
  rip : Nat
  rax : Nat
  rdi : Nat
  rsi : Nat
  orig_rax : Nat
  deriving DecidableEq, Repr

/-- hooks.rs callbacks.  `collect_stack` (remote unwinding through libunwind)
is external; the stack it returns for the stopped thread is the `stack`
parameter.  `on_malloc` reads the size from `rdi`; `on_calloc` multiplies
`rdi` and `rsi` as `u64`; `on_realloc` reads the previous address from `rdi`
and the size from `rsi`; `on_free` completes immediately with the `rdi`
argument; `on_malloc_return` completes with the `rax` result.  Callback
errors are logged and swallowed by the caller, leaving the context in its
state at the error point. -/
def run_callback : CallbackId → TraceContext → Mem → Nat → Regs → List StackEntry →
    TraceContext × Mem
  | .onMalloc, ctx, mem, pid, regs, stack =>
      let size := regs.rdi
      let ctx := ctx.ensure_thread_context pid
      if h : 2 ≤ stack.length then
        let r := ctx.breakpoint_set.add_one_shot_breakpoint mem pid
          (stack.get ⟨1, h⟩).address .onMallocReturn
        let tx := ctx.transaction.start_event pid (.Alloc size) stack
        ({ ctx with breakpoint_set := r.1, transaction := tx }, r.2)
      else (ctx, mem)
  | .onCalloc, ctx, mem, pid, regs, stack =>
      let count := regs.rdi
      let size := regs.rsi
      let ctx := ctx.ensure_thread_context pid
      if h : 2 ≤ stack.length then
        let r := ctx.breakpoint_set.add_one_shot_breakpoint mem pid
          (stack.get ⟨1, h⟩).address .onMallocReturn
        let tx := ctx.transaction.start_event pid (.Alloc (count * size % U64)) stack
        ({ ctx with breakpoint_set := r.1, transaction := tx }, r.2)
      else (ctx, mem)
  | .onRealloc, ctx, mem, pid, regs, stack =>
      let address := regs.rdi
      let size := regs.rsi
      let ctx := ctx.ensure_thread_context pid
      if h : 2 ≤ stack.length then
        let r := ctx.breakpoint_set.add_one_shot_breakpoint mem pid
          (stack.get ⟨1, h⟩).address .onMallocReturn
        let tx := ctx.transaction.start_event pid (.Realloc address size) stack
        ({ ctx with breakpoint_set := r.1, transaction := tx }, r.2)
      else (ctx, mem)
  | .onFree, ctx, mem, pid, regs, stack =>
      let address := regs.rdi
      let ctx := ctx.ensure_thread_context pid
      let tx := ctx.transaction.start_event pid .Free stack
      let tx := match tx.complete_event pid address with
        | .ok t => t
        | .error _ => tx
      ({ ctx with transaction := tx }, mem)
  | .onMallocReturn, ctx, mem, pid, regs, _ =>
      let address := regs.rax
      let tx := match ctx.transaction.complete_event pid address with
        | .ok t => t
        | .error _ => ctx.transaction
      ({ ctx with transaction := tx }, mem)

/-- hooks.rs `on_mmap` together with `TraceContext::update_process_map`: on
syscall completion, re-snapshot the process map, rebuild the symbol index
(both external reads, entering as `symbols`), and re-resolve breakpoints. -/
def run_syscall_callback : SyscallId → TraceContext → Mem → Nat → Bool →
    List (String × List Nat) → TraceContext × Mem
  | .onMmap, ctx, mem, pid, complete, symbols =>
      if complete then
        let r := ctx.breakpoint_set.resolve_breakpoints mem symbols pid
        ({ ctx with breakpoint_set := r.1 }, r.2)
      else (ctx, mem)

/-! ## The SIGTRAP handler (trace.rs `on_breakpoint`) -/

/-- The dispatch decision taken by trace.rs `on_breakpoint` lines 32-75:
the (possibly rewound) registers, the breakpoint callback to invoke, the
syscall intercept to invoke, and whether a one-shot fired. -/
def breakpoint_decision (bs : BreakpointSet) (tx : Transaction) (mem : Mem)
    (pid : Nat) (regs : Regs) : Regs × Option CallbackId × Option SyscallId × Bool :=
  let address := regs.rip - 1
  match alookup bs.breakpoints address with
  | some breakpoint =>
      -- move the instruction pointer back one byte (written back via setregs)
      let regs := { regs with rip := address }
      let callback : Option CallbackId :=
        if breakpoint.persist && !(tx.is_event_in_progress pid) then
          some breakpoint.callback
        else none
      if pid ∈ breakpoint.one_shot_threads then (regs, some breakpoint.callback, none, true)
      else (regs, callback, none, false)
  | none =>
      let insn := peekbyte mem (regs.rip - 2)
      let insn2 := peekbyte mem (regs.rip - 1)
      if insn = 0x0F ∧ insn2 = 0x05 then
        (regs, none, alookup bs.syscall_intercepts regs.orig_rax, false)
      else (regs, none, none, false)

/-- The outcome of one `on_breakpoint` invocation: the updated trace context
and tracee memory, the registers written back, and the `callback` /
`intercept` / `one_shot` locals of the source. -/
structure OnBreakpointResult where
  ctx : TraceContext
  mem : Mem
  regs : Regs
  invoked : Option CallbackId
  intercepted : Option SyscallId
  one_shot : Bool

/-- trace.rs `on_breakpoint`: ensure the thread context, decide on callbacks
by looking up the breakpoint at `rip - 1` (else check for a `syscall`
instruction and an intercept), dispatch the breakpoint callback, dispatch
the syscall intercept and toggle `in_syscall`, step through the breakpoint
at the stopped address if one is (still) present, and clear a fired
one-shot.  The SIGSTOP freeze and the single-step of the tracee are kernel
interactions with no model state beyond the step-through memory writes. -/
def on_breakpoint (ctx : TraceContext) (mem : Mem) (pid : Nat) (regs : Regs)
    (stack : List StackEntry) (symbols : List (String × List Nat)) :
    OnBreakpointResult :=
  let ctx := ctx.ensure_thread_context pid
  let address := regs.rip - 1
  let d := breakpoint_decision ctx.breakpoint_set ctx.transaction mem pid regs
  let regs := d.1
  let callback := d.2.1
  let intercept := d.2.2.1
  let one_shot := d.2.2.2
  let afterCb : TraceContext × Mem :=
    match callback with
    | some c => run_callback c ctx mem pid regs stack
    | none => (ctx, mem)
  let ctx := afterCb.1
  let mem := afterCb.2
  let afterSys : TraceContext × Mem :=
    match intercept with
    | some s =>
        let in_syscall := ((alookup ctx.thread_context pid).getD ⟨false⟩).in_syscall
        let r := run_syscall_callback s ctx mem pid in_syscall symbols
        let tc := aModify r.1.thread_context pid (fun t => ⟨!t.in_syscall⟩)
        ({ r.1 with thread_context := tc }, r.2)
    | none => (ctx, mem)
  let ctx := afterSys.1
  let mem := afterSys.2
  let mem :=
    match alookup ctx.breakpoint_set.breakpoints address with
    | some bp => insert_breakpoint_instruction (bp.remove_instruction mem) bp.address
    | none => mem
  let ctx :=
    if one_shot then
      { ctx with breakpoint_set := ctx.breakpoint_set.remove_one_shot_breakpoint pid address }
    else ctx
  ⟨ctx, mem, regs, callback, intercept, one_shot⟩

theorem ensure_breakpoint_set (ctx : TraceContext) (pid : Nat) :
    (ctx.ensure_thread_context pid).breakpoint_set = ctx.breakpoint_set := by
  unfold TraceContext.ensure_thread_context
  split <;> rfl

theorem ensure_transaction (ctx : TraceContext) (pid : Nat) :
    (ctx.ensure_thread_context pid).transaction = ctx.transaction := by
  unfold TraceContext.ensure_thread_context
  split <;> rfl

theorem ensure_lookup (ctx : TraceContext) (pid : Nat) :
    alookup (ctx.ensure_thread_context pid).thread_context pid =
      some ⟨((alookup ctx.thread_context pid).getD ⟨false⟩).in_syscall⟩ := by
  unfold TraceContext.ensure_thread_context
  rcases h : alookup ctx.thread_context pid with _ | t
  · simp [h, alookup]
  · rcases t with ⟨b⟩
    simp [h]

theorem run_callback_thread_context (cid : CallbackId) (ctx : TraceContext) (mem : Mem)
    (pid : Nat) (regs : Regs) (stack : List StackEntry)
    (h : (alookup ctx.thread_context pid).isSome) :
    (run_callback cid ctx mem pid regs stack).1.thread_context = ctx.thread_context := by
  have he : ctx.ensure_thread_context pid = ctx := by
    unfold TraceContext.ensure_thread_context
    simp [h]
  cases cid <;> simp only [run_callback, he] <;> (try split) <;> rfl

theorem run_syscall_thread_context (sid : SyscallId) (ctx : TraceContext) (mem : Mem)
    (pid : Nat) (complete : Bool) (symbols : List (String × List Nat)) :
    (run_syscall_callback sid ctx mem pid complete symbols).1.thread_context =
      ctx.thread_context := by
  cases sid
  cases complete <;> rfl

/-! ## C2: callback dispatch on a SIGTRAP stop -/

/-- C2 (trace.rs `on_breakpoint` lines 37-57 and the re-entrancy guard):
when the adjusted program counter `rip - 1` has an installed breakpoint, its
callback is invoked iff the breakpoint is persistent and no event is in
progress for the stopping thread, or the thread is in the breakpoint's
one-shot set — in the latter case even when an event is in progress. -/
theorem on_breakpoint_callback_iff (ctx : TraceContext) (mem : Mem) (pid : Nat)
    (regs : Regs) (stack : List StackEntry) (symbols : List (String × List Nat))
    (bp : Breakpoint)
    (h : alookup ctx.breakpoint_set.breakpoints (regs.rip - 1) = some bp) :
    (on_breakpoint ctx mem pid regs stack symbols).invoked = some bp.callback ↔
      ((bp.persist = true ∧ ctx.transaction.is_event_in_progress pid = false) ∨
        pid ∈ bp.one_shot_threads) := by
  have hinv : (on_breakpoint ctx mem pid regs stack symbols).invoked =
      (breakpoint_decision (ctx.ensure_thread_context pid).breakpoint_set
        (ctx.ensure_thread_context pid).transaction mem pid regs).2.1 := rfl
  rw [hinv, ensure_breakpoint_set, ensure_transaction]
  simp only [breakpoint_decision]
  rw [h]
  by_cases hos : pid ∈ bp.one_shot_threads
  · simp [hos]
  · by_cases hp : bp.persist
    · by_cases hip : ctx.transaction.is_event_in_progress pid = true
      · simp [hos, hp, hip]
      · have hip2 : ctx.transaction.is_event_in_progress pid = false := by
          simpa using hip
        simp [hos, hp, hip2]
    · have hp2 : bp.persist = false := by
        simpa using hp
      simp [hos, hp2]

/-! ## C5: allocator entry hooks -/

theorem add_breakpoint_one_shot (bps : List (Nat × Breakpoint)) (mem : Mem)
    (pid address : Nat) (cb : CallbackId) :
    ∃ bp : Breakpoint,
      alookup (add_breakpoint bps mem pid address cb false).1 address = some bp ∧
        pid ∈ bp.one_shot_threads := by
  unfold add_breakpoint
  by_cases hpres : (alookup bps address).isSome
  · rcases Option.isSome_iff_exists.mp hpres with ⟨bp0, hbp0⟩
    refine ⟨{ bp0 with one_shot_threads := insert pid bp0.one_shot_threads }, ?_, ?_⟩
    · simp only [hpres, if_true, if_false, Bool.false_eq_true]
      rw [alookup_aModify_self, hbp0]
      rfl
    · exact Finset.mem_insert_self pid bp0.one_shot_threads
  · refine ⟨⟨address, peektext mem (alignWord address), cb, false, insert pid ∅⟩, ?_, ?_⟩
    · simp only [hpres, Bool.false_eq_true, if_false]
      rw [alookup_aModify_self]
      simp [alookup]
    · exact Finset.mem_insert_self pid ∅

/-- The abstract event opened by each allocator entry hook, as a function of
the integer-argument registers: `Alloc(rdi)` for `malloc`, `Alloc(rdi * rsi)`
(64-bit product) for `calloc`, `Realloc(rdi, rsi)` for `realloc`; none for
the other callbacks. -/
def entry_event : CallbackId → Regs → Option EventType
  | .onMalloc, regs => some (.Alloc regs.rdi)
  | .onCalloc, regs => some (.Alloc (regs.rdi * regs.rsi % U64))
  | .onRealloc, regs => some (.Realloc regs.rdi regs.rsi)
  | _, _ => none

/-- C5 (hooks.rs `on_malloc` / `on_calloc` / `on_realloc`): each allocator
entry hook opens an in-progress event for the stopping thread and registers
the thread on a one-shot breakpoint at the second stack entry's address
(bound to the malloc-return callback for a fresh breakpoint) exactly when the
collected stack has at least two entries; with a shorter stack the
transaction, the breakpoint set and the tracee memory are untouched.  For
`calloc` the recorded event is `Alloc(count × unit)` computed as the 64-bit
product of the first two integer-argument registers (see `entry_event`). -/
theorem entry_hooks_open_event (cid : CallbackId) (ctx : TraceContext) (mem : Mem)
    (pid : Nat) (regs : Regs) (stack : List StackEntry) (ev : EventType)
    (hev : entry_event cid regs = some ev) :
    (∀ h2 : 2 ≤ stack.length,
      alookup (run_callback cid ctx mem pid regs stack).1.transaction.record_in_progress
          pid = some ⟨ev, stack⟩ ∧
      ∃ bp : Breakpoint,
        alookup (run_callback cid ctx mem pid regs stack).1.breakpoint_set.breakpoints
            (stack.get ⟨1, h2⟩).address = some bp ∧
          pid ∈ bp.one_shot_threads) ∧
    (stack.length < 2 →
      (run_callback cid ctx mem pid regs stack).1.transaction = ctx.transaction ∧
      (run_callback cid ctx mem pid regs stack).1.breakpoint_set = ctx.breakpoint_set ∧
      (run_callback cid ctx mem pid regs stack).2 = mem) := by
  cases cid
  case onFree => simp [entry_event] at hev
  case onMallocReturn => simp [entry_event] at hev
  all_goals
    simp only [entry_event, Option.some.injEq] at hev
  all_goals subst hev
  all_goals
    constructor
    · intro h2
      constructor
      · simp only [run_callback, dif_pos h2, ensure_transaction]
        simp [Transaction.start_event, alookup]
      · simp only [run_callback, dif_pos h2, ensure_breakpoint_set,
          BreakpointSet.add_one_shot_breakpoint]
        exact add_breakpoint_one_shot _ _ pid _ .onMallocReturn
    · intro hshort
      have h2 : ¬2 ≤ stack.length := by omega
      refine ⟨?_, ?_, ?_⟩ <;>
        simp only [run_callback, dif_neg h2, ensure_transaction, ensure_breakpoint_set]

/-! ## C8: the `in_syscall` flag -/

theorem on_breakpoint_thread_context (ctx : TraceContext) (mem : Mem) (pid : Nat)
    (regs : Regs) (stack : List StackEntry) (symbols : List (String × List Nat)) :
    (on_breakpoint ctx mem pid regs stack symbols).ctx.thread_context =
      (match (breakpoint_decision (ctx.ensure_thread_context pid).breakpoint_set
          (ctx.ensure_thread_context pid).transaction mem pid regs).2.2.1 with
        | some _ => aModify (ctx.ensure_thread_context pid).thread_context pid
            (fun t => ⟨!t.in_syscall⟩)
        | none => (ctx.ensure_thread_context pid).thread_context) := by
  have hsome : (alookup (ctx.ensure_thread_context pid).thread_context pid).isSome := by
    rw [ensure_lookup]
    rfl
  simp only [on_breakpoint]
  rcases hit : (breakpoint_decision (ctx.ensure_thread_context pid).breakpoint_set
      (ctx.ensure_thread_context pid).transaction mem pid regs).2.2.1 with _ | s <;>
    rcases hcb : (breakpoint_decision (ctx.ensure_thread_context pid).breakpoint_set
        (ctx.ensure_thread_context pid).transaction mem pid regs).2.1 with _ | c <;>
      simp only [hit, hcb, apply_ite TraceContext.thread_context, ite_self] <;>
        (try rw [run_syscall_thread_context]) <;>
          (try rw [run_callback_thread_context c (ctx.ensure_thread_context pid) mem pid _
            stack hsome]) <;>
            (try rfl)

/-- C8 counterexample: a thread stopping at a `syscall` instruction (bytes
`0x0F 0x05` precede the instruction pointer) whose syscall number (`orig_rax
= 0`, i.e. `read`) has no registered intercept — only `mmap` (number 9) is
intercepted — leaves `in_syscall` unchanged at `false`, although the claim
requires the flag to flip on every syscall-stop. -/
theorem on_breakpoint_syscall_no_toggle :
    let ctx0 : TraceContext :=
      ⟨⟨[], [], [(9, SyscallId.onMmap)]⟩, ⟨[], []⟩, [(7, ⟨false⟩)]⟩
    let mem0 : Mem := fun a => if a = 0 then 0x050F000000000000 else 0
    let regs0 : Regs := ⟨8, 0, 0, 0, 0⟩
    (peekbyte mem0 (regs0.rip - 2) = 0x0F ∧ peekbyte mem0 (regs0.rip - 1) = 0x05) ∧
      alookup ctx0.breakpoint_set.breakpoints (regs0.rip - 1) = none ∧
      ((alookup ctx0.thread_context 7).getD ⟨false⟩).in_syscall = false ∧
      ((alookup (on_breakpoint ctx0 mem0 7 regs0 [] []).ctx.thread_context 7).getD
          ⟨false⟩).in_syscall = false := by
  exact ⟨⟨rfl, rfl⟩, rfl, rfl, rfl⟩

/-- C8 (amended): `in_syscall` starts `false` when the thread context is
created and toggles exactly on those stops where no breakpoint is installed
at `rip - 1`, the two bytes before the instruction pointer are `0x0F 0x05`
(a `syscall` instruction), **and** the stop's syscall number has a registered
intercept (only `mmap` is registered); on every other stop — including
syscall-stops for non-intercepted syscalls — the flag is unchanged. -/
theorem on_breakpoint_in_syscall_flip (ctx : TraceContext) (mem : Mem) (pid : Nat)
    (regs : Regs) (stack : List StackEntry) (symbols : List (String × List Nat)) :
    ((alookup (on_breakpoint ctx mem pid regs stack symbols).ctx.thread_context
        pid).getD ⟨false⟩).in_syscall =
      (if alookup ctx.breakpoint_set.breakpoints (regs.rip - 1) = none ∧
          peekbyte mem (regs.rip - 2) = 0x0F ∧ peekbyte mem (regs.rip - 1) = 0x05 ∧
          (alookup ctx.breakpoint_set.syscall_intercepts regs.orig_rax).isSome = true then
        !((alookup ctx.thread_context pid).getD ⟨false⟩).in_syscall
      else ((alookup ctx.thread_context pid).getD ⟨false⟩).in_syscall) := by
  rw [on_breakpoint_thread_context, ensure_breakpoint_set, ensure_transaction]
  rcases hbp : alookup ctx.breakpoint_set.breakpoints (regs.rip - 1) with _ | bp
  · simp only [breakpoint_decision, hbp]
    by_cases hsys : peekbyte mem (regs.rip - 2) = 0x0F ∧ peekbyte mem (regs.rip - 1) = 0x05
    · rw [if_pos hsys]
      rcases hic : alookup ctx.breakpoint_set.syscall_intercepts regs.orig_rax with _ | s
      · simp [hic, hsys, ensure_lookup]
      · simp [hic, hsys, alookup_aModify_self, ensure_lookup]
    · rw [if_neg hsys]
      have hcond : ¬(peekbyte mem (regs.rip - 2) = 0x0F ∧
          peekbyte mem (regs.rip - 1) = 0x05 ∧
          (alookup ctx.breakpoint_set.syscall_intercepts regs.orig_rax).isSome = true) := by
        intro hc
        exact hsys ⟨hc.1, hc.2.1⟩
      simp [ensure_lookup, hcond]
  · simp only [breakpoint_decision, hbp]
    by_cases hos : pid ∈ bp.one_shot_threads
    · simp [hos, hbp, ensure_lookup]
    · simp [hos, hbp, ensure_lookup]

/-! ## Command line (commandline.rs) and entry point (main.rs) -/

/-- commandline.rs `CommandLineArguments`. -/
structure CommandLineArguments where
  atrace_filename : String
  command : List String
  target_pid : Option Nat
  report_version : Bool
  show_help : Bool
  deriving DecidableEq, Repr

/-- Rust `str::parse::<u32>`: an optional leading `+`, then one or more
decimal digits, rejecting values above `u32::MAX`. -/
def parse_u32 (s : String) : Option Nat :=
  let chars := s.toList
  let chars := if chars.head? = some '+' then chars.drop 1 else chars
  if chars.isEmpty = false ∧ chars.all Char.isDigit then
    let n := chars.foldl (fun acc c => acc * 10 + (c.toNat - 48)) 0
    if n < 2 ^ 32 then some n else none
  else none

/-- commandline.rs `get_trace_filename_from_command`.  `Path::file_name` is
std-library behaviour, modelled as the last non-empty `/`-separated component
(none for paths ending in `.` or `..`); no claim depends on the filename. -/
def get_trace_filename_from_command (command : List String) : String :=
  match command with
  | [] => "alloc-trace.atrace"
  | c :: _ =>
      match ((c.splitOn "/").filter (fun x => x ≠ "")).getLast? with
      | some b => if b = "." ∨ b = ".." then "alloc-trace.atrace" else b ++ ".atrace"
      | none => "alloc-trace.atrace"

/-- The mutable locals of `CommandLineArguments::parse`. -/
structure ParseState where
  atrace_filename : Option String
  command : List String
  target_pid : Option Nat
  show_help : Bool
  command_started : Bool
  report_version : Bool
  expect_pid : Bool
  expect_atrace_filename : Bool
  deriving DecidableEq, Repr

/-- The inner `for char in token.chars().skip(1)` loop over short flags:
unrecognized flags print a message to stderr and set `show_help`. -/
def scan_short_flags (chars : List Char) (st : ParseState) : ParseState :=
  chars.foldl
    (fun st c =>
      match c with
      | 'h' => { st with show_help := true }
      | 'o' => { st with expect_atrace_filename := true }
      | 'p' => { st with expect_pid := true }
      | 'v' => { st with report_version := true }
      | _ => { st with show_help := true })
    st

/-- One iteration of the token loop of `CommandLineArguments::parse`. -/
def parse_token (st : ParseState) (token : String) : Except String ParseState :=
  if !st.command_started && (token.toList.head? = some '-' : Bool) then
    if token.toList.get? 1 = some '-' then
      .ok (match token with
        | "--help" => { st with show_help := true }
        | "--output" => { st with expect_atrace_filename := true }
        | "--pid" => { st with expect_pid := true }
        | "--version" => { st with report_version := true }
        | _ => { st with show_help := true })
    else
      .ok (scan_short_flags (token.toList.drop 1) st)
  else if !st.command_started && st.expect_pid then
    let st := { st with expect_pid := false }
    match parse_u32 token with
    | some n => .ok { st with target_pid := some n }
    | none => .error ("invalid target PID: " ++ token)
  else if !st.command_started && st.expect_atrace_filename then
    .ok { st with expect_atrace_filename := false, atrace_filename := some token }
  else
    .ok { st with command := st.command ++ [token], command_started := true }

/-- The token loop of `CommandLineArguments::parse`. -/
def parse_tokens : List String → ParseState → Except String ParseState
  | [], st => .ok st
  | token :: rest, st =>
      match parse_token st token with
      | .ok st2 => parse_tokens rest st2
      | .error e => .error e

/-- commandline.rs `CommandLineArguments::parse`, over the full `argv`
(the first element, the program name, is skipped). -/
def parse_arguments (args : List String) : Except String CommandLineArguments :=
  match parse_tokens (args.drop 1) ⟨none, [], none, false, false, false, false, false⟩ with
  | .error e => .error e
  | .ok st =>
      .ok { atrace_filename :=
              match st.atrace_filename with
              | some filename => filename
              | none => get_trace_filename_from_command st.command,
            command := st.command,
            target_pid := st.target_pid,
            report_version := st.report_version,
            show_help := st.show_help }

/-- The control-flow outcome of main.rs `main`: which terminal action is
taken after argument parsing.  The trace outcomes stand for the calls into
`trace_pid` / `trace_command`; on a clean trace `main` returns `Ok` (exit
code 0), and a parse error propagates as `Err` (non-zero exit code). -/
inductive MainOutcome where
  | versionReported
  | helpShown
  | traceStartedPid (atrace_filename : String) (pid : Nat)
  | traceStartedCommand (atrace_filename : String) (command : List String)
  | argError (message : String)
  deriving DecidableEq, Repr

/-- main.rs `main`: parse, then report version / show help / trace by pid /
trace a command / show help when nothing was requested. -/
def main_outcome (args : List String) : MainOutcome :=
  match parse_arguments args with
  | .error e => .argError e
  | .ok a =>
      if a.report_version then .versionReported
      else if a.show_help then .helpShown
      else match a.target_pid with
        | some pid => .traceStartedPid a.atrace_filename pid
        | none =>
            if a.command.length > 0 then .traceStartedCommand a.atrace_filename a.command
            else .helpShown

/-- Whether the chosen outcome prints the help text (`commandline::show_help`). -/
def help_printed : MainOutcome → Bool
  | .helpShown => true
  | _ => false

/-- Whether `main` returns a non-zero exit code on this outcome: only the
`Err` propagation of an argument error does (a clean or signal-terminated
trace exits 0). -/
def exit_nonzero : MainOutcome → Bool
  | .argError _ => true
  | _ => false

/-! ## C9: invalid command-line input -/

/-- C9 counterexample.  An unknown flag (`-z`) makes `parse` set `show_help`
and return `Ok`, so `main` prints the help text and exits **zero**; a
non-numeric PID argument (`-p zzz`) makes `parse` return `Err`, so `main`
exits non-zero **without** printing the help text.  In neither case does the
tracer both print help and exit non-zero as the claim states. -/
theorem main_invalid_input_counterexample :
    (main_outcome ["allocscope-trace", "-z"] = .helpShown ∧
      help_printed (main_outcome ["allocscope-trace", "-z"]) = true ∧
      exit_nonzero (main_outcome ["allocscope-trace", "-z"]) = false) ∧
    (main_outcome ["allocscope-trace", "-p", "zzz"] =
        .argError "invalid target PID: zzz" ∧
      exit_nonzero (main_outcome ["allocscope-trace", "-p", "zzz"]) = true ∧
      help_printed (main_outcome ["allocscope-trace", "-p", "zzz"]) = false) := by
  exact ⟨⟨rfl, rfl, rfl⟩, ⟨rfl, rfl, rfl⟩⟩

/-- C9 (amended): when parsing succeeds with `show_help` set (as an unknown
flag forces) and `--version` was not requested, `main` prints the help text
and exits zero; when parsing fails (as a non-numeric PID argument forces),
`main` propagates the error and exits non-zero without printing the help
text. -/
theorem main_outcome_invalid_input (args : List String) :
    (∀ a : CommandLineArguments, parse_arguments args = .ok a →
      a.report_version = false → a.show_help = true →
        main_outcome args = .helpShown ∧
          help_printed (main_outcome args) = true ∧
          exit_nonzero (main_outcome args) = false) ∧
    (∀ e : String, parse_arguments args = .error e →
      main_outcome args = .argError e ∧
        exit_nonzero (main_outcome args) = true ∧
        help_printed (main_outcome args) = false) := by
  constructor
  · intro a hok hv hh
    unfold main_outcome
    rw [hok]
    simp [hv, hh, help_printed, exit_nonzero]
  · intro e herr
    unfold main_outcome
    rw [herr]
    exact ⟨rfl, rfl, rfl⟩

/-! ## Witnesses instantiating the universally quantified theorems -/

/-- Witness for C1 at a concrete `Realloc(5, 16)` completion with result 77. -/
theorem complete_event_emission_witness :
    (alookup (Transaction.mk [(3, ⟨EventType.Realloc 5 16, []⟩)] []).record_in_progress 3 =
      some ⟨EventType.Realloc 5 16, []⟩) ∧
    (∃ tx' : Transaction,
      (Transaction.mk [(3, ⟨EventType.Realloc 5 16, []⟩)] []).complete_event 3 77 =
          .ok tx' ∧
        tx'.events = ([] : List EmittedEvent) ++
          ((if (5 : Nat) ≠ 0 ∧ ((77 : Nat) ≠ 0 ∨ (16 : Nat) = 0) then
              [⟨false, 5, (none : Option Nat)⟩] else []) ++
            (if (77 : Nat) ≠ 0 then [⟨true, 77, some 16⟩] else [])) ∧
        (∀ prev size,
          (RecordInProgress.mk (EventType.Realloc 5 16) []).allocation =
              .Realloc prev size →
            prev ≠ 0 → (77 : Nat) ≠ 0 →
              tx'.events = ([] : List EmittedEvent) ++
                [⟨false, prev, (none : Option Nat)⟩, ⟨true, 77, some size⟩])) :=
  ⟨rfl, complete_event_emission ⟨[(3, ⟨EventType.Realloc 5 16, []⟩)], []⟩ 3 77
    ⟨EventType.Realloc 5 16, []⟩ rfl⟩

/-- Witness for C2 at a concrete persistent breakpoint with no event in
progress. -/
theorem on_breakpoint_callback_iff_witness :
    (alookup (TraceContext.mk ⟨[], [(9, ⟨9, 0, .onMalloc, true, ∅⟩)], []⟩ ⟨[], []⟩
        []).breakpoint_set.breakpoints ((Regs.mk 10 0 0 0 0).rip - 1) =
      some ⟨9, 0, .onMalloc, true, ∅⟩) ∧
    ((on_breakpoint ⟨⟨[], [(9, ⟨9, 0, .onMalloc, true, ∅⟩)], []⟩, ⟨[], []⟩, []⟩
          (fun _ => 0) 4 ⟨10, 0, 0, 0, 0⟩ [] []).invoked =
        some (Breakpoint.mk 9 0 .onMalloc true ∅).callback ↔
      (((Breakpoint.mk 9 0 .onMalloc true ∅).persist = true ∧
          (Transaction.mk [] []).is_event_in_progress 4 = false) ∨
        4 ∈ (Breakpoint.mk 9 0 .onMalloc true ∅).one_shot_threads)) :=
  ⟨rfl, on_breakpoint_callback_iff ⟨⟨[], [(9, ⟨9, 0, .onMalloc, true, ∅⟩)], []⟩, ⟨[], []⟩, []⟩
    (fun _ => 0) 4 ⟨10, 0, 0, 0, 0⟩ [] [] ⟨9, 0, .onMalloc, true, ∅⟩ rfl⟩

/-- Witness for C3: fresh install / uninstall at address 3 over a memory
holding `0x1122` in every word. -/
theorem install_uninstall_roundtrip_witness :
    (alookup ([] : List (Nat × Breakpoint)) 3 = none) ∧
    (∃ bp : Breakpoint,
      alookup (add_breakpoint [] (fun _ => 0x1122) 1 3 .onMalloc true).1 3 = some bp ∧
        peektext (bp.remove_instruction (add_breakpoint [] (fun _ => 0x1122) 1 3
            .onMalloc true).2) (alignWord 3) =
          peektext (fun _ => 0x1122) (alignWord 3)) :=
  ⟨rfl, install_uninstall_roundtrip [] (fun _ => 0x1122) 1 3 .onMalloc rfl⟩

/-- Witness for C4: breakpoints at addresses 8 and 9 share the aligned word
at 8; the word `0xCC00` has the `0xCC` of the breakpoint at 9 in byte 1. -/
theorem uninstall_preserves_other_breakpoint_witness :
    (alignWord (Breakpoint.mk 8 0 .onMalloc true ∅).address =
      alignWord (Breakpoint.mk 9 0 .onFree true ∅).address) ∧
    ((Breakpoint.mk 8 0 .onMalloc true ∅).address ≠
      (Breakpoint.mk 9 0 .onFree true ∅).address) ∧
    (peekbyte (fun _ => 0xCC00) (Breakpoint.mk 9 0 .onFree true ∅).address = 0xCC) ∧
    (peekbyte ((Breakpoint.mk 8 0 .onMalloc true ∅).remove_instruction (fun _ => 0xCC00))
        (Breakpoint.mk 9 0 .onFree true ∅).address =
      peekbyte (fun _ => 0xCC00) (Breakpoint.mk 9 0 .onFree true ∅).address ∧
      peekbyte ((Breakpoint.mk 8 0 .onMalloc true ∅).remove_instruction (fun _ => 0xCC00))
          (Breakpoint.mk 9 0 .onFree true ∅).address = 0xCC) :=
  ⟨rfl, by decide, rfl,
    uninstall_preserves_other_breakpoint (fun _ => 0xCC00) ⟨8, 0, .onMalloc, true, ∅⟩
      ⟨9, 0, .onFree, true, ∅⟩ rfl (by decide) rfl⟩

/-- Witness for C5 at a concrete `calloc` entry with `rdi = 6`, `rsi = 7` and
a two-entry stack. -/
theorem entry_hooks_open_event_witness :
    (entry_event .onCalloc ⟨10, 0, 6, 7, 0⟩ = some (.Alloc (6 * 7 % U64))) ∧
    ((∀ h2 : 2 ≤ ([⟨1, "a", 0⟩, ⟨2, "b", 0⟩] : List StackEntry).length,
      alookup (run_callback .onCalloc ⟨⟨[], [], []⟩, ⟨[], []⟩, []⟩ (fun _ => 0) 4
            ⟨10, 0, 6, 7, 0⟩ [⟨1, "a", 0⟩, ⟨2, "b", 0⟩]).1.transaction.record_in_progress
          4 = some ⟨.Alloc (6 * 7 % U64), [⟨1, "a", 0⟩, ⟨2, "b", 0⟩]⟩ ∧
      ∃ bp : Breakpoint,
        alookup (run_callback .onCalloc ⟨⟨[], [], []⟩, ⟨[], []⟩, []⟩ (fun _ => 0) 4
              ⟨10, 0, 6, 7, 0⟩
              [⟨1, "a", 0⟩, ⟨2, "b", 0⟩]).1.breakpoint_set.breakpoints
            (([⟨1, "a", 0⟩, ⟨2, "b", 0⟩] : List StackEntry).get ⟨1, h2⟩).address =
          some bp ∧ 4 ∈ bp.one_shot_threads) ∧
    (([⟨1, "a", 0⟩, ⟨2, "b", 0⟩] : List StackEntry).length < 2 →
      (run_callback .onCalloc ⟨⟨[], [], []⟩, ⟨[], []⟩, []⟩ (fun _ => 0) 4 ⟨10, 0, 6, 7, 0⟩
          [⟨1, "a", 0⟩, ⟨2, "b", 0⟩]).1.transaction = Transaction.mk [] [] ∧
      (run_callback .onCalloc ⟨⟨[], [], []⟩, ⟨[], []⟩, []⟩ (fun _ => 0) 4 ⟨10, 0, 6, 7, 0⟩
          [⟨1, "a", 0⟩, ⟨2, "b", 0⟩]).1.breakpoint_set = BreakpointSet.mk [] [] [] ∧
      (run_callback .onCalloc ⟨⟨[], [], []⟩, ⟨[], []⟩, []⟩ (fun _ => 0) 4 ⟨10, 0, 6, 7, 0⟩
          [⟨1, "a", 0⟩, ⟨2, "b", 0⟩]).2 = (fun _ => 0))) :=
  ⟨rfl, entry_hooks_open_event .onCalloc ⟨⟨[], [], []⟩, ⟨[], []⟩, []⟩ (fun _ => 0) 4
    ⟨10, 0, 6, 7, 0⟩ [⟨1, "a", 0⟩, ⟨2, "b", 0⟩] (.Alloc (6 * 7 % U64)) rfl⟩

/-- Witness for the amended C6 at address 4 over a one-symbol index. -/
theorem get_function_by_address_closed_range_witness :
    4 + 1 < U64 ∧
      get_function_by_address [(0, ⟨"f", 0, 4⟩)] 4 =
        (((([((0 : Nat), SymbolInfo.mk "f" 0 4)].filter
            (fun p => decide (p.1 ≤ 4))).map Prod.snd).reverse).take 4).find?
          (fun s => decide (4 - s.address ≤ s.size)) :=
  ⟨by decide, get_function_by_address_closed_range [(0, ⟨"f", 0, 4⟩)] 4 (by decide)⟩

/-- Witness for the amended C7: the single binding `malloc → {64}` over an
initially empty breakpoint set. -/
theorem resolve_breakpoints_covers_witness :
    ((BreakpointLooseBinding.mk "malloc" .onMalloc) ∈
      (BreakpointSet.mk [⟨"malloc", .onMalloc⟩] [] []).bindings) ∧
    (slookup [("malloc", [64])] (BreakpointLooseBinding.mk "malloc" .onMalloc).function_name =
      some [64]) ∧
    ((64 : Nat) ∈ [(64 : Nat)]) ∧
    (∃ bp' : Breakpoint,
      alookup ((BreakpointSet.mk [⟨"malloc", .onMalloc⟩] [] []).resolve_breakpoints
          (fun _ => 0) [("malloc", [64])] 2).1.breakpoints 64 = some bp' ∧
        (∀ bp, alookup (BreakpointSet.mk [⟨"malloc", .onMalloc⟩] [] []).breakpoints 64 =
            some bp → bp' = bp) ∧
        (alookup (BreakpointSet.mk [⟨"malloc", .onMalloc⟩] [] []).breakpoints 64 = none →
          bp'.persist = true)) :=
  ⟨List.mem_singleton.mpr rfl, rfl, List.mem_singleton.mpr rfl,
    resolve_breakpoints_covers ⟨[⟨"malloc", .onMalloc⟩], [], []⟩ (fun _ => 0)
      [("malloc", [64])] 2 ⟨"malloc", .onMalloc⟩ (List.mem_singleton.mpr rfl) [64] rfl 64
      (List.mem_singleton.mpr rfl)⟩

/-- Witness for the amended C9 at the two concrete invalid invocations. -/
theorem main_outcome_invalid_input_witness :
    main_outcome ["allocscope-trace", "-z"] = .helpShown ∧
      main_outcome ["allocscope-trace", "-p", "zzz"] =
        .argError "invalid target PID: zzz" :=
  ⟨((main_outcome_invalid_input ["allocscope-trace", "-z"]).1
      ⟨"alloc-trace.atrace", [], none, false, true⟩ rfl rfl rfl).1,
    ((main_outcome_invalid_input ["allocscope-trace", "-p", "zzz"]).2
      "invalid target PID: zzz" rfl).1⟩

/-- Witness for C10: the error case on an empty transaction and the success
case on a `Free` completion. -/
theorem complete_event_error_iff_witness :
    (aerase (Transaction.mk [] []).record_in_progress 0 = []) ∧
      (Transaction.mk [] [⟨false, 5, none⟩]).is_event_in_progress 0 = false :=
  ⟨(complete_event_error_iff ⟨[], []⟩ 0 0).2.1 rfl,
    (complete_event_error_iff ⟨[(0, ⟨EventType.Free, []⟩)], []⟩ 0 5).2.2
      ⟨[], [⟨false, 5, none⟩]⟩ rfl⟩

end Allocscope
